import Mathlib

/-!
Shallow embedding of the retrieval-pipeline repository:
  * `src/aimakerspace/text_utils.py` — `TextFileLoader`, `CharacterTextSplitter`
  * `src/api/app.py` — `check_rate_limit`

Python strings are modelled as `List Char`, Python `float` timestamps as `ℚ`,
Python `int` constructor parameters as `ℤ`. Raised exceptions are modelled with
`Except String`.
-/

/-- Python `range(start, stop, step)` for a positive step, modelled by
CPython's documented semantics: the elements are `r[i] = start + step*i` for
`i ≥ 0` with `r[i] < stop`, i.e. `⌈(stop - start) / step⌉` of them.
(`range` with `step = 0` raises in Python; here Lean's division by zero makes
the list `[]`, a case outside every use in the source, where
`step = chunk_size - chunk_overlap > 0` is enforced by the constructor
assertion.) -/
def pyRange (start stop step : Nat) : List Nat :=
  (List.range ((stop - start + step - 1) / step)).map (fun i => start + i * step)

/-- Python slice `text[i : i + n]` for natural `i`, `n`. -/
def pySlice (text : List Char) (i n : Nat) : List Char :=
  (text.drop i).take n

/-- State of `CharacterTextSplitter` after a successful `__init__`
(`self.chunk_size`, `self.chunk_overlap`). -/
structure CharacterTextSplitter where
  chunk_size : Nat
  chunk_overlap : Nat
deriving Repr, DecidableEq

/-- Constructor `CharacterTextSplitter.__init__(chunk_size, chunk_overlap)`
(text_utils.py 41–51): `assert chunk_size > chunk_overlap` and store both
fields; the parameters are Python ints, so modelled over `ℤ`. -/
def mkCharacterTextSplitter (chunk_size chunk_overlap : Int) :
    Except String CharacterTextSplitter :=
  if chunk_size > chunk_overlap then
    .ok ⟨chunk_size.toNat, chunk_overlap.toNat⟩
  else
    .error "Chunk size must be greater than chunk overlap"

/-- Method `CharacterTextSplitter.split(text)` (text_utils.py 53–57):
`for i in range(0, len(text), self.chunk_size - self.chunk_overlap):
    chunks.append(text[i : i + self.chunk_size])`. -/
def CharacterTextSplitter.split (s : CharacterTextSplitter) (text : List Char) :
    List (List Char) :=
  (pyRange 0 text.length (s.chunk_size - s.chunk_overlap)).map
    (fun i => pySlice text i s.chunk_size)

/-- Method `CharacterTextSplitter.split_texts(texts)` (text_utils.py 59–63):
start from `[]` and `chunks.extend(self.split(text))` for each text. -/
def CharacterTextSplitter.split_texts (s : CharacterTextSplitter)
    (texts : List (List Char)) : List (List Char) :=
  texts.foldl (fun chunks text => chunks ++ s.split text) []

/-- The filesystem as `TextFileLoader` observes it: `os.path.isdir`,
`os.path.isfile`, the text read from a file, and the contents of the `.txt`
files reached by `os.walk` in the directory case (in walk order). -/
structure FileSystem where
  isdir : List Char → Bool
  isfile : List Char → Bool
  fileText : List Char → List Char
  walkTxtTexts : List Char → List (List Char)

/-- Python `path.endswith(".txt")`. -/
def endsWithTxt (path : List Char) : Bool :=
  List.isSuffixOf [Char.ofNat 46, Char.ofNat 116, Char.ofNat 120, Char.ofNat 116] path

/-- State of `TextFileLoader` (`self.documents`, `self.path`, `self.encoding`). -/
structure TextFileLoader where
  documents : List (List Char)
  path : List Char
  encoding : List Char

/-- Constructor `TextFileLoader.__init__(path, encoding="utf-8")`: `self.documents = []`. -/
def mkTextFileLoader (path : List Char) : TextFileLoader :=
  ⟨[], path, [Char.ofNat 117, Char.ofNat 116, Char.ofNat 102, Char.ofNat 45, Char.ofNat 56]⟩

/-- Method `TextFileLoader.load_file` (text_utils.py 22–24): append the file's text. -/
def TextFileLoader.load_file (l : TextFileLoader) (fs : FileSystem) : TextFileLoader :=
  { l with documents := l.documents ++ [fs.fileText l.path] }

/-- Method `TextFileLoader.load_directory` (text_utils.py 26–33): append each walked
`.txt` file's text in order. -/
def TextFileLoader.load_directory (l : TextFileLoader) (fs : FileSystem) : TextFileLoader :=
  { l with documents := l.documents ++ fs.walkTxtTexts l.path }

/-- Method `TextFileLoader.load` (text_utils.py 12–20): directory → `load_directory`;
existing file with name ending `.txt` → `load_file`; otherwise raise
`ValueError`. -/
def TextFileLoader.load (l : TextFileLoader) (fs : FileSystem) :
    Except String TextFileLoader :=
  if fs.isdir l.path then
    .ok (l.load_directory fs)
  else if fs.isfile l.path && endsWithTxt l.path then
    .ok (l.load_file fs)
  else
    .error "Provided path is neither a valid directory nor a .txt file."

/-- Method `TextFileLoader.load_documents` (text_utils.py 35–37): `self.load()`, then
return `self.documents` (with the updated state). -/
def TextFileLoader.load_documents (l : TextFileLoader) (fs : FileSystem) :
    Except String (List (List Char) × TextFileLoader) :=
  match l.load fs with
  | .ok l2 => .ok (l2.documents, l2)
  | .error e => .error e

/-- The loader's state after `n` calls of `load_documents`; a raised
exception leaves the state unchanged (the `ValueError` in `load` is raised
before any append). -/
def loadDocumentsN (fs : FileSystem) (l : TextFileLoader) : Nat → TextFileLoader
  | 0 => l
  | n + 1 =>
    match (loadDocumentsN fs l n).load_documents fs with
    | .ok (_, l2) => l2
    | .error _ => loadDocumentsN fs l n

/-- The new documents a single successful `load` appends to `self.documents`. -/
def loadedDocs (fs : FileSystem) (path : List Char) : List (List Char) :=
  if fs.isdir path then fs.walkTxtTexts path
  else if fs.isfile path && endsWithTxt path then [fs.fileText path]
  else []

/-- Six-character sample text "abcdef" used in concrete evaluations. -/
def sampleText : List Char := ['a', 'b', 'c', 'd', 'e', 'f']

/-- Sample path "a.txt" used in concrete evaluations. -/
def samplePath : List Char := ['a', '.', 't', 'x', 't']

/-- A one-file filesystem for concrete evaluations: only "a.txt" exists, a
file containing "hi"; there are no directories. -/
def sampleFS : FileSystem :=
  { isdir := fun _ => false
    isfile := fun p => p == samplePath
    fileText := fun _ => ['h', 'i']
    walkTxtTexts := fun _ => [] }

/-- The pruning step of `check_rate_limit` (app.py 97–98): keep the request
timestamps with `current_time - req_time < window`. -/
def pruneWindow (times : List ℚ) (current_time window : ℚ) : List ℚ :=
  times.filter (fun req_time => current_time - req_time < window)

/-- Function `check_rate_limit(client_ip, limit=10, window=60)` (app.py 90–106) for one
client: `times` is `request_counts[client_ip]` (`[]` when the key is absent).
Returns (raised the 429 `HTTPException`?, the client's new timestamp list). -/
def check_rate_limit (times : List ℚ) (current_time : ℚ) (limit : Nat)
    (window : ℚ) : Bool × List ℚ :=
  let pruned := pruneWindow times current_time window
  if limit ≤ pruned.length then
    (true, pruned)
  else
    (false, pruned ++ [current_time])

/-! ## Lemmas about `pyRange` -/

/-- Closed form: `pyRange start stop step` is the list of `start + k * step` for `k` below
its length. -/
theorem pyRange_map (start stop step : Nat) :
    pyRange start stop step =
      (List.range (pyRange start stop step).length).map (fun k => start + k * step) := by
  simp [pyRange]

/-- Every element of `pyRange start stop step` is below `stop`. -/
theorem pyRange_lt (start stop step : Nat) : ∀ i ∈ pyRange start stop step, i < stop := by
  intro i hi
  rcases List.mem_map.mp hi with ⟨k, hk, rfl⟩
  rw [List.mem_range] at hk
  rcases Nat.eq_zero_or_pos step with hz | hstep
  · rw [hz, Nat.div_zero] at hk
    exact absurd hk (Nat.not_lt_zero k)
  · have h2 : (k + 1) * step ≤ ((stop - start + step - 1) / step) * step :=
      Nat.mul_le_mul_right step hk
    have h3 : ((stop - start + step - 1) / step) * step ≤ stop - start + step - 1 :=
      Nat.div_mul_le_self _ _
    rw [Nat.succ_mul] at h2
    generalize ((stop - start + step - 1) / step) * step = P at h2 h3
    generalize k * step = m at h2 ⊢
    omega

/-- Completeness: every offset `start + k * step` below `stop` occurs in
`pyRange start stop step`. -/
theorem pyRange_mem (start stop step : Nat) (hstep : 0 < step) (k : Nat)
    (h : start + k * step < stop) : start + k * step ∈ pyRange start stop step := by
  refine List.mem_map_of_mem _ (List.mem_range.mpr ?_)
  have ha : start < stop := Nat.lt_of_le_of_lt (Nat.le_add_right start (k * step)) h
  have h1 : k * step ≤ stop - start - 1 := by
    generalize k * step = m at h ⊢
    omega
  have h2 : k * step / step ≤ (stop - start - 1) / step := Nat.div_le_div_right h1
  rw [Nat.mul_div_cancel k hstep] at h2
  have h3 : stop - start + step - 1 = (stop - start - 1) + step := by omega
  rw [h3, Nat.add_div_right _ hstep]
  generalize (stop - start - 1) / step = D at h2 ⊢
  omega

/-- Index bound of `pyRange 0 stop step`: position `k` exists iff the offset
`k * step` is below `stop`. -/
theorem pyRange_zero_lt_iff (stop step : Nat) (hstep : 0 < step) (k : Nat) :
    k < (pyRange 0 stop step).length ↔ k * step < stop := by
  constructor
  · intro hk
    have hmem : (0 : Nat) + k * step ∈ pyRange 0 stop step := by
      refine List.mem_map_of_mem _ (List.mem_range.mpr ?_)
      simp only [pyRange, List.length_map, List.length_range] at hk
      exact hk
    have hlt := pyRange_lt 0 stop step _ hmem
    simpa using hlt
  · intro hk
    have hmem : (0 : Nat) + k * step ∈ pyRange 0 stop step :=
      pyRange_mem 0 stop step hstep k (by simpa using hk)
    simp only [pyRange] at hmem
    rcases List.mem_map.mp hmem with ⟨j, hj, hval⟩
    simp only [Nat.zero_add] at hval
    have hjk : j = k := Nat.eq_of_mul_eq_mul_right hstep hval
    rw [List.mem_range] at hj
    simp only [pyRange, List.length_map, List.length_range]
    generalize (stop - 0 + step - 1) / step = D at hj ⊢
    omega

/-- Value of `getD` on a map over `List.range`. -/
theorem getD_map_range {α : Type} (f : Nat → α) (d : α) (L k : Nat) (hk : k < L) :
    ((List.range L).map f).getD k d = f k := by
  rw [List.getD_eq_getElem?_getD, List.getElem?_map, List.getElem?_range hk]
  rfl

/-! ## Lemmas about `split` -/

theorem pySlice_length (text : List Char) (i n : Nat) :
    (pySlice text i n).length = min n (text.length - i) := by
  simp [pySlice]

/-- Characterization of `split` as a map over chunk indices: the `k`-th chunk is the slice at
offset `k * (chunk_size - chunk_overlap)`. -/
theorem split_eq_window (s : CharacterTextSplitter) (text : List Char) :
    s.split text =
      (List.range (s.split text).length).map
        (fun k => pySlice text (k * (s.chunk_size - s.chunk_overlap)) s.chunk_size) := by
  unfold CharacterTextSplitter.split
  conv_lhs => rw [pyRange_map 0 text.length (s.chunk_size - s.chunk_overlap)]
  rw [List.map_map, List.length_map]
  refine List.map_congr_left ?_
  intro k _
  simp only [Function.comp_apply, Nat.zero_add]

/-- A chunk index exists iff its window offset is inside the text. -/
theorem split_length_iff (s : CharacterTextSplitter) (text : List Char)
    (h : s.chunk_overlap < s.chunk_size) (k : Nat) :
    k < (s.split text).length ↔ k * (s.chunk_size - s.chunk_overlap) < text.length := by
  unfold CharacterTextSplitter.split
  rw [List.length_map]
  exact pyRange_zero_lt_iff text.length _ (by omega) k

/-- The chunk at index `k`. -/
theorem split_getD (s : CharacterTextSplitter) (text : List Char) (k : Nat)
    (hk : k < (s.split text).length) :
    (s.split text).getD k [] =
      pySlice text (k * (s.chunk_size - s.chunk_overlap)) s.chunk_size := by
  conv_lhs => rw [split_eq_window s text]
  exact getD_map_range _ _ _ k hk

/-- Every chunk is a slice of the text at an in-range offset. -/
theorem mem_split (s : CharacterTextSplitter) (text : List Char) (c : List Char)
    (hc : c ∈ s.split text) :
    ∃ i, i < text.length ∧ c = pySlice text i s.chunk_size := by
  unfold CharacterTextSplitter.split at hc
  rcases List.mem_map.mp hc with ⟨i, hi, rfl⟩
  exact ⟨i, pyRange_lt _ _ _ i hi, rfl⟩

/-! ## Claim theorems -/

/-- C3 (confirmed): `split` advances a window of width `chunk_size` across the
text in steps of `chunk_size - chunk_overlap`: the `k`-th chunk is the
substring starting at offset `k * (chunk_size - chunk_overlap)` of length at
most `chunk_size` (no padding), and a chunk is produced exactly for each such
offset strictly below the text length. -/
theorem C3_split_is_sliding_window (s : CharacterTextSplitter) (text : List Char)
    (h : s.chunk_overlap < s.chunk_size) :
    (s.split text =
      (List.range (s.split text).length).map
        (fun k => pySlice text (k * (s.chunk_size - s.chunk_overlap)) s.chunk_size)) ∧
    (∀ k, k < (s.split text).length ↔
      k * (s.chunk_size - s.chunk_overlap) < text.length) ∧
    (∀ c ∈ s.split text, c.length ≤ s.chunk_size) := by
  refine ⟨split_eq_window s text, fun k => split_length_iff s text h k, ?_⟩
  intro c hc
  rcases mem_split s text c hc with ⟨i, _, rfl⟩
  rw [pySlice_length]
  omega

theorem C3_split_is_sliding_window_witness :
    (2 : Nat) < 5 ∧
    ((CharacterTextSplitter.split ⟨5, 2⟩ sampleText =
      (List.range (CharacterTextSplitter.split ⟨5, 2⟩ sampleText).length).map
        (fun k => pySlice sampleText (k * (5 - 2)) 5)) ∧
    (∀ k, k < (CharacterTextSplitter.split ⟨5, 2⟩ sampleText).length ↔
      k * (5 - 2) < sampleText.length) ∧
    (∀ c ∈ CharacterTextSplitter.split ⟨5, 2⟩ sampleText, c.length ≤ 5)) :=
  ⟨by decide, C3_split_is_sliding_window ⟨5, 2⟩ sampleText (by decide)⟩

/-- C7 (confirmed): every chunk returned by `split` is a contiguous substring
of the text: it equals the characters of the text from some position `i` to
`i + (chunk length)`, a range inside the text. -/
theorem C7_chunks_are_substrings (s : CharacterTextSplitter) (text : List Char) :
    ∀ c ∈ s.split text, ∃ i, i + c.length ≤ text.length ∧
      c = (text.drop i).take c.length := by
  intro c hc
  rcases mem_split s text c hc with ⟨i, hi, rfl⟩
  refine ⟨i, ?_, ?_⟩
  · rw [pySlice_length]
    omega
  · rw [pySlice_length]
    unfold pySlice
    rw [List.take_eq_take, List.length_drop]
    omega

/-- C8 (confirmed): the empty text yields no chunks under any configuration;
under a valid configuration (`chunk_size > overlap > 0`) a non-empty text
yields at least one chunk and every chunk is non-empty. -/
theorem C8_empty_nonempty (s : CharacterTextSplitter) (text : List Char)
    (hov : 0 < s.chunk_overlap) (hcs : s.chunk_overlap < s.chunk_size) :
    (s.split [] = []) ∧
    (text ≠ [] → s.split text ≠ [] ∧ ∀ c ∈ s.split text, c ≠ []) := by
  constructor
  · unfold CharacterTextSplitter.split pyRange
    have h0 : (List.length ([] : List Char) - 0 + (s.chunk_size - s.chunk_overlap) - 1) /
        (s.chunk_size - s.chunk_overlap) = 0 := by
      apply Nat.div_eq_of_lt
      simp only [List.length_nil]
      omega
    rw [h0]
    simp
  · intro ht
    have hlen : 0 < text.length := List.length_pos.mpr ht
    constructor
    · have h0 : 0 < (s.split text).length := by
        rw [split_length_iff s text hcs 0]
        simpa using hlen
      exact List.ne_nil_of_length_pos h0
    · intro c hc
      rcases mem_split s text c hc with ⟨i, hi, rfl⟩
      have : 0 < (pySlice text i s.chunk_size).length := by
        rw [pySlice_length]
        omega
      exact List.ne_nil_of_length_pos this

theorem C8_empty_nonempty_witness :
    ((0 : Nat) < 2 ∧ (2 : Nat) < 5) ∧
    (CharacterTextSplitter.split ⟨5, 2⟩ [] = [] ∧
      (sampleText ≠ [] → CharacterTextSplitter.split ⟨5, 2⟩ sampleText ≠ [] ∧
        ∀ c ∈ CharacterTextSplitter.split ⟨5, 2⟩ sampleText, c ≠ [])) :=
  ⟨⟨by decide, by decide⟩, C8_empty_nonempty ⟨5, 2⟩ sampleText (by decide) (by decide)⟩

/-- C1 counterexample: with chunk_size 5 and overlap 4 — a configuration
satisfying `chunk_size > overlap > 0` — on the 6-character text "abcdef",
`split` returns 6 chunks and the chunk at index 2 is not the last one yet has
length 4 ≠ chunk_size, refuting "each chunk except possibly the last has
length exactly chunk_size". -/
theorem C1_counterexample :
    ((0 : Nat) < 4 ∧ (4 : Nat) < 5) ∧
    (CharacterTextSplitter.split ⟨5, 4⟩ sampleText).length = 6 ∧
    ((CharacterTextSplitter.split ⟨5, 4⟩ sampleText).getD 2 []).length = 4 := by
  decide

/-- C1 (amended, confirmed): for every configuration with
`chunk_size > overlap > 0` the chunks cover every character position of the
text; each chunk whose window fits in the text (start offset + chunk_size ≤
text length) has length exactly chunk_size, and every chunk's length is
`min chunk_size (text length - start offset)` (so the trailing chunks, not
just the last, may be shorter). -/
theorem C1_coverage_and_chunk_lengths (s : CharacterTextSplitter) (text : List Char)
    (hov : 0 < s.chunk_overlap) (hcs : s.chunk_overlap < s.chunk_size) :
    (∀ p, p < text.length → ∃ k, k < (s.split text).length ∧
        k * (s.chunk_size - s.chunk_overlap) ≤ p ∧
        p < k * (s.chunk_size - s.chunk_overlap) + ((s.split text).getD k []).length) ∧
    (∀ k, k < (s.split text).length →
        ((s.split text).getD k []).length =
          min s.chunk_size (text.length - k * (s.chunk_size - s.chunk_overlap))) := by
  have hstep : 0 < s.chunk_size - s.chunk_overlap := by omega
  have hlen : ∀ k, k < (s.split text).length →
      ((s.split text).getD k []).length =
        min s.chunk_size (text.length - k * (s.chunk_size - s.chunk_overlap)) := by
    intro k hk
    rw [split_getD s text k hk, pySlice_length]
  refine ⟨?_, hlen⟩
  intro p hp
  have hoff : p / (s.chunk_size - s.chunk_overlap) * (s.chunk_size - s.chunk_overlap) ≤ p :=
    Nat.div_mul_le_self p _
  have hk : p / (s.chunk_size - s.chunk_overlap) < (s.split text).length := by
    rw [split_length_iff s text hcs]
    exact Nat.lt_of_le_of_lt hoff hp
  refine ⟨p / (s.chunk_size - s.chunk_overlap), hk, hoff, ?_⟩
  rw [hlen _ hk]
  have hdm := Nat.div_add_mod p (s.chunk_size - s.chunk_overlap)
  have hmod : p % (s.chunk_size - s.chunk_overlap) < s.chunk_size - s.chunk_overlap :=
    Nat.mod_lt p hstep
  have hcm : p / (s.chunk_size - s.chunk_overlap) * (s.chunk_size - s.chunk_overlap) =
      (s.chunk_size - s.chunk_overlap) * (p / (s.chunk_size - s.chunk_overlap)) :=
    Nat.mul_comm _ _
  rw [hcm]
  generalize (s.chunk_size - s.chunk_overlap) * (p / (s.chunk_size - s.chunk_overlap)) = M
    at hdm ⊢
  generalize p % (s.chunk_size - s.chunk_overlap) = r at hdm hmod
  omega

theorem C1_coverage_and_chunk_lengths_witness :
    ((0 : Nat) < 2 ∧ (2 : Nat) < 5) ∧
    ((∀ p, p < sampleText.length → ∃ k, k < (CharacterTextSplitter.split ⟨5, 2⟩ sampleText).length ∧
        k * (5 - 2) ≤ p ∧
        p < k * (5 - 2) + ((CharacterTextSplitter.split ⟨5, 2⟩ sampleText).getD k []).length) ∧
    (∀ k, k < (CharacterTextSplitter.split ⟨5, 2⟩ sampleText).length →
        ((CharacterTextSplitter.split ⟨5, 2⟩ sampleText).getD k []).length =
          min 5 (sampleText.length - k * (5 - 2)))) :=
  ⟨⟨by decide, by decide⟩, C1_coverage_and_chunk_lengths ⟨5, 2⟩ sampleText (by decide) (by decide)⟩

/-- C4 counterexample: with chunk_size 5 and overlap 4 (valid: 5 > 4 > 0) on
the 6-character text "abcdef", chunks 2 and 3 are consecutive (3 + 1 ≤ 6
chunks exist) but the last 4 characters of chunk 2 ("cdef") differ from the
first 4 characters of chunk 3 ("def"): consecutive chunks do not always
overlap by exactly `overlap` characters. -/
theorem C4_counterexample :
    ((0 : Nat) < 4 ∧ (4 : Nat) < 5) ∧
    2 + 1 < (CharacterTextSplitter.split ⟨5, 4⟩ sampleText).length ∧
    ((CharacterTextSplitter.split ⟨5, 4⟩ sampleText).getD 2 []).drop
        (((CharacterTextSplitter.split ⟨5, 4⟩ sampleText).getD 2 []).length - 4) ≠
      ((CharacterTextSplitter.split ⟨5, 4⟩ sampleText).getD 3 []).take 4 := by
  decide

/-- C4 (amended, confirmed): for every valid configuration, each pair of
consecutive chunks whose earlier member has full length `chunk_size` overlaps
by exactly `overlap` characters: the last `overlap` characters of the earlier
chunk equal the first `overlap` characters of the next chunk, and that shared
block has length exactly `overlap`. -/
theorem C4_overlap_of_full_chunk (s : CharacterTextSplitter) (text : List Char)
    (hov : 0 < s.chunk_overlap) (hcs : s.chunk_overlap < s.chunk_size) (k : Nat)
    (hk1 : k + 1 < (s.split text).length)
    (hfull : ((s.split text).getD k []).length = s.chunk_size) :
    ((s.split text).getD k []).drop
        (((s.split text).getD k []).length - s.chunk_overlap) =
      ((s.split text).getD (k + 1) []).take s.chunk_overlap ∧
    (((s.split text).getD (k + 1) []).take s.chunk_overlap).length =
      s.chunk_overlap := by
  have hk : k < (s.split text).length := Nat.lt_of_succ_lt hk1
  rw [split_getD s text k hk] at hfull ⊢
  rw [split_getD s text (k + 1) hk1]
  rw [pySlice_length] at hfull
  have hfit : k * (s.chunk_size - s.chunk_overlap) + s.chunk_size ≤ text.length := by
    generalize k * (s.chunk_size - s.chunk_overlap) = i at hfull
    omega
  have hsucc : (k + 1) * (s.chunk_size - s.chunk_overlap) =
      k * (s.chunk_size - s.chunk_overlap) + (s.chunk_size - s.chunk_overlap) :=
    Nat.succ_mul k _
  constructor
  · rw [pySlice_length, hfull]
    unfold pySlice
    rw [List.drop_take, List.drop_drop, List.take_take]
    have h1 : s.chunk_size - (s.chunk_size - s.chunk_overlap) = s.chunk_overlap := by omega
    have h2 : min s.chunk_overlap s.chunk_size = s.chunk_overlap := by omega
    rw [h1, h2, ← hsucc]
  · rw [List.length_take, pySlice_length, hsucc]
    generalize k * (s.chunk_size - s.chunk_overlap) = i at hfit
    omega

theorem C4_overlap_of_full_chunk_witness :
    ((0 : Nat) < 2 ∧ (2 : Nat) < 5 ∧
      0 + 1 < (CharacterTextSplitter.split ⟨5, 2⟩ sampleText).length ∧
      ((CharacterTextSplitter.split ⟨5, 2⟩ sampleText).getD 0 []).length = 5) ∧
    (((CharacterTextSplitter.split ⟨5, 2⟩ sampleText).getD 0 []).drop
        (((CharacterTextSplitter.split ⟨5, 2⟩ sampleText).getD 0 []).length - 2) =
      ((CharacterTextSplitter.split ⟨5, 2⟩ sampleText).getD (0 + 1) []).take 2 ∧
    (((CharacterTextSplitter.split ⟨5, 2⟩ sampleText).getD (0 + 1) []).take 2).length = 2) :=
  ⟨⟨by decide, by decide, by decide, by decide⟩,
    C4_overlap_of_full_chunk ⟨5, 2⟩ sampleText (by decide) (by decide) 0 (by decide) (by decide)⟩

/-- C5 (confirmed): `split_texts` concatenates, in document order, the chunk
lists of each document: it equals the flattening of the per-document splits,
acts as `split` on a single document, and distributes over list append. -/
theorem C5_split_texts_is_concat (s : CharacterTextSplitter) :
    (∀ texts : List (List Char), s.split_texts texts = (texts.map s.split).flatten) ∧
    (∀ t : List Char, s.split_texts [t] = s.split t) ∧
    (∀ ts1 ts2 : List (List Char),
      s.split_texts (ts1 ++ ts2) = s.split_texts ts1 ++ s.split_texts ts2) := by
  have key : ∀ (texts : List (List Char)) (acc : List (List Char)),
      texts.foldl (fun chunks text => chunks ++ s.split text) acc =
        acc ++ (texts.map s.split).flatten := by
    intro texts
    induction texts with
    | nil => intro acc; simp
    | cons t ts ih =>
      intro acc
      simp only [List.foldl_cons, List.map_cons, List.flatten_cons]
      rw [ih, List.append_assoc]
  refine ⟨?_, ?_, ?_⟩
  · intro texts
    unfold CharacterTextSplitter.split_texts
    simpa using key texts []
  · intro t
    unfold CharacterTextSplitter.split_texts
    simp
  · intro ts1 ts2
    unfold CharacterTextSplitter.split_texts
    rw [List.foldl_append, key ts2, key ts2, key ts1]
    simp

/-- C2 counterexample: the constructor only asserts
`chunk_size > chunk_overlap`; with chunk_size 10 and overlap 0 — a pair
violating `overlap > 0` that the claim says must fail — construction
succeeds. -/
theorem C2_counterexample :
    ¬ ((0 : Int) > 0) ∧ (mkCharacterTextSplitter 10 0).isOk = true :=
  ⟨by decide, rfl⟩

/-- C2 (amended, proved): construction fails exactly when
`chunk_size ≤ chunk_overlap` and succeeds exactly when
`chunk_size > chunk_overlap` — including pairs with `overlap ≤ 0`; in
particular every pair with `chunk_size > overlap > 0` succeeds. -/
theorem C2_init_ok_iff (chunk_size chunk_overlap : Int) :
    ((mkCharacterTextSplitter chunk_size chunk_overlap).isOk = true ↔
      chunk_overlap < chunk_size) ∧
    ((mkCharacterTextSplitter chunk_size chunk_overlap).isOk = false ↔
      chunk_size ≤ chunk_overlap) := by
  unfold mkCharacterTextSplitter
  by_cases h : chunk_size > chunk_overlap
  · rw [if_pos h]
    constructor
    · simp only [Except.isOk, Except.toBool, true_iff]
      exact h
    · simp only [Except.isOk, Except.toBool, Bool.true_eq_false, false_iff]
      omega
  · rw [if_neg h]
    constructor
    · simp only [Except.isOk, Except.toBool, Bool.false_eq_true, false_iff]
      omega
    · simp only [Except.isOk, Except.toBool, true_iff]
      omega

/-- C6 (confirmed): `load` raises the unsupported-source `ValueError` exactly
when the path is neither a directory nor an existing file whose name ends in
".txt"; on a directory or an existing ".txt" file it returns normally. -/
theorem C6_load_unsupported_source (fs : FileSystem) (l : TextFileLoader) :
    (l.load fs = .error "Provided path is neither a valid directory nor a .txt file." ↔
      ¬ (fs.isdir l.path = true ∨
          (fs.isfile l.path = true ∧ endsWithTxt l.path = true))) ∧
    ((l.load fs).isOk = true ↔
      (fs.isdir l.path = true ∨
        (fs.isfile l.path = true ∧ endsWithTxt l.path = true))) := by
  unfold TextFileLoader.load
  by_cases hd : fs.isdir l.path = true
  · rw [if_pos hd]
    constructor
    · simp [hd]
    · simp [Except.isOk, Except.toBool, hd]
  · rw [if_neg hd]
    by_cases hf : (fs.isfile l.path && endsWithTxt l.path) = true
    · rw [if_pos hf]
      rw [Bool.and_eq_true] at hf
      constructor
      · simp [hf]
      · simp [Except.isOk, Except.toBool, hf]
    · rw [if_neg hf]
      rw [Bool.and_eq_true] at hf
      constructor
      · simp [hd, hf]
      · simp [Except.isOk, Except.toBool, hd, hf]

/-- A successful `load` appends exactly `loadedDocs` to `self.documents` and
changes nothing else. -/
theorem load_ok_spec (fs : FileSystem) (l : TextFileLoader)
    (h : fs.isdir l.path = true ∨
      (fs.isfile l.path = true ∧ endsWithTxt l.path = true)) :
    l.load fs = .ok { l with documents := l.documents ++ loadedDocs fs l.path } := by
  by_cases hd : fs.isdir l.path = true
  · simp [TextFileLoader.load, loadedDocs, TextFileLoader.load_directory, hd]
  · rcases h with h | ⟨hf, ht⟩
    · exact absurd h hd
    · simp [TextFileLoader.load, loadedDocs, TextFileLoader.load_file, hd, hf, ht]

/-- After `n` calls of `load_documents` the path is unchanged and the
documents list holds `n` copies of the source's documents. -/
theorem loadDocumentsN_spec (fs : FileSystem) (path : List Char)
    (h : fs.isdir path = true ∨ (fs.isfile path = true ∧ endsWithTxt path = true)) :
    ∀ n, (loadDocumentsN fs (mkTextFileLoader path) n).path = path ∧
      (loadDocumentsN fs (mkTextFileLoader path) n).documents =
        (List.replicate n (loadedDocs fs path)).flatten := by
  intro n
  induction n with
  | zero => exact ⟨rfl, by simp [loadDocumentsN, mkTextFileLoader]⟩
  | succ n ih =>
    have hload := load_ok_spec fs (loadDocumentsN fs (mkTextFileLoader path) n)
      (by rw [ih.1]; exact h)
    rw [ih.1] at hload
    constructor
    · simp [loadDocumentsN, TextFileLoader.load_documents, hload]
    · simp [loadDocumentsN, TextFileLoader.load_documents, hload, ih.2,
        List.replicate_succ']

/-- C9 (confirmed): `load` appends to `self.documents` instead of replacing
it: starting from a fresh loader over an unchanged loadable source, after `n`
calls the accumulated list is `n` copies of the source's documents, the
`(n+1)`-th `load_documents` call returns `n+1` copies, and each call extends
the previous list without removing anything. -/
theorem C9_load_documents_accumulates (fs : FileSystem) (path : List Char)
    (h : fs.isdir path = true ∨ (fs.isfile path = true ∧ endsWithTxt path = true)) :
    ∀ n : Nat,
      (loadDocumentsN fs (mkTextFileLoader path) n).documents =
        (List.replicate n (loadedDocs fs path)).flatten ∧
      (loadDocumentsN fs (mkTextFileLoader path) n).load_documents fs =
        .ok ((List.replicate (n + 1) (loadedDocs fs path)).flatten,
          loadDocumentsN fs (mkTextFileLoader path) (n + 1)) ∧
      (loadDocumentsN fs (mkTextFileLoader path) (n + 1)).documents =
        (loadDocumentsN fs (mkTextFileLoader path) n).documents ++
          loadedDocs fs path := by
  intro n
  have hs := loadDocumentsN_spec fs path h n
  have hs1 := loadDocumentsN_spec fs path h (n + 1)
  have hload := load_ok_spec fs (loadDocumentsN fs (mkTextFileLoader path) n)
    (by rw [hs.1]; exact h)
  rw [hs.1] at hload
  refine ⟨hs.2, ?_, ?_⟩
  · have hiter : loadDocumentsN fs (mkTextFileLoader path) (n + 1) =
        { loadDocumentsN fs (mkTextFileLoader path) n with
          documents := (loadDocumentsN fs (mkTextFileLoader path) n).documents ++
            loadedDocs fs path } := by
      simp [loadDocumentsN, TextFileLoader.load_documents, hload, hs.1]
    rw [TextFileLoader.load_documents, hload, hiter]
    simp [hs.1, hs.2, List.replicate_succ']
  · rw [hs.2, hs1.2, List.replicate_succ']
    simp

theorem C9_load_documents_accumulates_witness :
    (sampleFS.isdir samplePath = true ∨
      (sampleFS.isfile samplePath = true ∧ endsWithTxt samplePath = true)) ∧
    (∀ n : Nat,
      (loadDocumentsN sampleFS (mkTextFileLoader samplePath) n).documents =
        (List.replicate n (loadedDocs sampleFS samplePath)).flatten ∧
      (loadDocumentsN sampleFS (mkTextFileLoader samplePath) n).load_documents sampleFS =
        .ok ((List.replicate (n + 1) (loadedDocs sampleFS samplePath)).flatten,
          loadDocumentsN sampleFS (mkTextFileLoader samplePath) (n + 1)) ∧
      (loadDocumentsN sampleFS (mkTextFileLoader samplePath) (n + 1)).documents =
        (loadDocumentsN sampleFS (mkTextFileLoader samplePath) n).documents ++
          loadedDocs sampleFS samplePath) :=
  ⟨by decide, C9_load_documents_accumulates sampleFS samplePath (by decide)⟩

/-- C10 (confirmed): `check_rate_limit` raises the 429 error exactly when,
after discarding timestamps outside the window, the client already has at
least `limit` recorded requests; when it raises, the new state is exactly the
pruned list, so the rejected request's timestamp is never recorded and no
quota is consumed. -/
theorem C10_rate_limit_reject_no_quota (times : List ℚ) (current_time : ℚ)
    (limit : Nat) (window : ℚ) :
    ((check_rate_limit times current_time limit window).1 = true ↔
      limit ≤ (pruneWindow times current_time window).length) ∧
    ((check_rate_limit times current_time limit window).1 = true →
      (check_rate_limit times current_time limit window).2 =
        pruneWindow times current_time window) := by
  unfold check_rate_limit
  by_cases h : limit ≤ (pruneWindow times current_time window).length
  · rw [if_pos h]
    exact ⟨by simp [h], fun _ => rfl⟩
  · rw [if_neg h]
    exact ⟨by simp [h], fun hc => absurd hc (by simp)⟩

theorem C7_chunks_are_substrings_witness :
    (['a', 'b', 'c'] : List Char) ∈ CharacterTextSplitter.split ⟨3, 1⟩ sampleText ∧
    ∃ i, i + (['a', 'b', 'c'] : List Char).length ≤ sampleText.length ∧
      (['a', 'b', 'c'] : List Char) =
        (sampleText.drop i).take (['a', 'b', 'c'] : List Char).length :=
  ⟨by decide,
    C7_chunks_are_substrings ⟨3, 1⟩ sampleText ['a', 'b', 'c'] (by decide)⟩
